import Mathlib

/- Verification of the easypublisher draft/publish workflow
   (easymode/easypublisher/admin.py and models.py), shallowly embedded:
   database tables are lists of records, request-scoped reversion state is
   threaded explicitly, and the admin views become pure functions on that
   state. -/

/-- A row of field data, as an association list from field name to value. -/
abbrev Row := List (String × String)

/-- A reversion Version record: the snapshot of one object inside a revision.
The mutable field dictionary is held in a separate store, keyed by vid,
because render_revision_form mutates it in place. -/
structure Version where
  vid : Nat
  revision : Nat
  object_id : String
  content_type : Nat
deriving DecidableEq

/-- An EasyPublisherMetaData record (models.py lines 35-45): publication
status and language attached to a reversion revision. mid is the database
primary key of the metadata row. -/
structure EasyPublisherMetaData where
  mid : Nat
  revision : Nat
  status : String
  language : String
deriving DecidableEq

/-- A model instance: primary key, the optional published flag (none when the
model has no published attribute), and its remaining field data. -/
structure DbObj where
  pk : Nat
  published : Option Bool
  fields : Row
deriving DecidableEq

/-- The persistent tables and the request-scoped reversion state that the
admin code touches. pending_meta holds the (status, language) pairs queued by
reversion.revision.add_meta, registered the objects passed to
post_save_receiver for the pending revision, messages the user messages. -/
structure AppState where
  objects : List DbObj
  revisions : List Nat
  versions : List Version
  metadata : List EasyPublisherMetaData
  pending_meta : List (String × String)
  comment : String
  registered : List DbObj
  messages : List String
deriving DecidableEq

/-- Django model save: update the row with the same pk, or insert it. -/
def objSave (objects : List DbObj) (o : DbObj) : List DbObj :=
  if objects.any (fun q => q.pk == o.pk) then
    objects.map (fun q => if q.pk == o.pk then o else q)
  else
    objects ++ [o]

/-- EasyPublisher.save_model (admin.py lines 143-159): with the publish
permission the object is saved directly; without it a draft metadata entry is
queued, the comment is set to Draft, a new object with a published attribute
is stored unpublished, and the object is registered with published reset to
true for the revision snapshot. -/
def save_model (hasPerm change : Bool) (obj : DbObj) (lang : String) (st : AppState) : AppState :=
  if hasPerm then
    { st with objects := objSave st.objects obj }
  else
    let st1 := { st with
      pending_meta := st.pending_meta ++ [("draft", lang)],
      comment := "Draft" }
    if !change && obj.published.isSome then
      let st2 := { st1 with objects := objSave st1.objects { obj with published := some false } }
      { st2 with registered := st2.registered ++ [{ obj with published := some true }] }
    else
      { st1 with registered := st1.registered ++ [obj] }

/-- EasyPublisher.save_formset (admin.py lines 162-183): with the publish
permission the instances are saved; without it a draft metadata entry is
queued and the instances are registered for the pending revision. -/
def save_formset (hasPerm : Bool) (instances : List DbObj) (lang : String) (st : AppState) : AppState :=
  if hasPerm then
    { st with objects := instances.foldl objSave st.objects }
  else
    { st with
      pending_meta := st.pending_meta ++ [("draft", lang)],
      registered := st.registered ++ instances }

/-- The filter of get_draft_revisions (admin.py lines 189-199): a revision id
is a draft for object_id when some version ties it to the object with the
model content type and some metadata record marks it draft in the given
language. -/
def isDraftRevision (st : AppState) (object_id : String) (ct : Nat) (lang : String) (r : Nat) : Bool :=
  st.versions.any (fun v => v.revision == r && v.object_id == object_id && v.content_type == ct) &&
  st.metadata.any (fun m => m.revision == r && m.status == "draft" && m.language == lang)

/-- EasyPublisher.get_draft_revisions. -/
def get_draft_revisions (st : AppState) (object_id : String) (ct : Nat) (lang : String) : List Nat :=
  st.revisions.filter (isDraftRevision st object_id ct lang)

/-- EasyPublisher.has_draft: the length of the draft revision list. -/
def has_draft (st : AppState) (object_id : String) (ct : Nat) (lang : String) : Nat :=
  (get_draft_revisions st object_id ct lang).length

/-- EasyPublisher.get_latest_draft_revision: the element at index
num_revisions - 1 when the list is nonempty, None otherwise. -/
def get_latest_draft_revision (st : AppState) (object_id : String) (ct : Nat) (lang : String) : Option Nat :=
  let revisions := get_draft_revisions st object_id ct lang
  if revisions.length != 0 then revisions[revisions.length - 1]? else none

/-- EasyPublisher.get_latest_draft. -/
def get_latest_draft (st : AppState) (object_id : String) (ct : Nat) (lang : String) : Option Nat :=
  get_latest_draft_revision st object_id ct lang

/-- The outcome of change_view: a redirect to the publish view of the draft,
or the normal editing view carrying the has_draft context value. -/
inductive ChangeViewResult where
  | redirectToDraft (pk : Nat)
  | normalView (has_draft : Option Nat)
deriving DecidableEq

/-- EasyPublisher.change_view (admin.py lines 95-110). -/
def change_view (st : AppState) (object_id : String) (ct : Nat) (lang : String) (hasPerm current : Bool) : ChangeViewResult :=
  match get_latest_draft st object_id ct lang with
  | some pk =>
    if !current && !hasPerm then ChangeViewResult.redirectToDraft pk
    else ChangeViewResult.normalView (some pk)
  | none => ChangeViewResult.normalView none

/-- The snapshot version.revision.easypublishermetadata_set.all() taken at
the start of the update_draft loop. -/
def metasOfRevision (db : List EasyPublisherMetaData) (rid : Nat) : List EasyPublisherMetaData :=
  db.filter (fun m => m.revision == rid)

/-- The filter EasyPublisherMetaData.objects.filter with
revision__version__object_id and revision__version__content_type: true when
some version links the metadata record's revision to the object. -/
def matchesObjectFilter (versions : List Version) (object_id : String) (ct : Nat) (m : EasyPublisherMetaData) : Bool :=
  versions.any (fun v => v.revision == m.revision && v.object_id == object_id && v.content_type == ct)

/-- metadata.save(): overwrite the row with the same primary key. -/
def saveMeta (db : List EasyPublisherMetaData) (m : EasyPublisherMetaData) : List EasyPublisherMetaData :=
  db.map (fun o => if o.mid == m.mid then m else o)

/-- The inner decline loop of update_draft: every object-matching metadata
record is saved with status declined. -/
def declineAll (versions : List Version) (object_id : String) (ct : Nat) (db : List EasyPublisherMetaData) : List EasyPublisherMetaData :=
  db.map (fun o => if matchesObjectFilter versions object_id ct o then { o with status := "declined" } else o)

/-- EasyPublisher.update_draft (admin.py lines 233-247): for each metadata
record of the revision of the version, with the publish permission all
object-matching records are declined and then the record is saved as
published; without the permission the record is saved as updated. -/
def update_draft (hasPerm : Bool) (version : Version) (db : List EasyPublisherMetaData) (versions : List Version) : List EasyPublisherMetaData :=
  (metasOfRevision db version.revision).foldl
    (fun acc m =>
      if hasPerm then
        saveMeta (declineAll versions version.object_id version.content_type acc) { m with status := "published" }
      else
        saveMeta acc { m with status := "updated" })
    db

/-- A function on metadata records that may change the status field but
nothing else. The intermediate databases of the update_draft loop are images
of the starting database under such functions. -/
def statusOnly (f : EasyPublisherMetaData → EasyPublisherMetaData) : Prop :=
  ∀ r, f r = { r with status := (f r).status }

/-- The effect of one update_draft iteration with the publish permission, as
a function applied pointwise to the rows of the starting database. -/
def permStepFun (versions : List Version) (oid : String) (ct : Nat)
    (m : EasyPublisherMetaData) (f : EasyPublisherMetaData → EasyPublisherMetaData) :
    EasyPublisherMetaData → EasyPublisherMetaData :=
  fun r =>
    if r.mid == m.mid then { r with status := "published" }
    else if matchesObjectFilter versions oid ct r then { r with status := "declined" }
    else f r

/-- The effect of one update_draft iteration without the publish permission,
as a function applied pointwise to the rows of the starting database. -/
def updStepFun (m : EasyPublisherMetaData)
    (f : EasyPublisherMetaData → EasyPublisherMetaData) :
    EasyPublisherMetaData → EasyPublisherMetaData :=
  fun r => if r.mid == m.mid then { r with status := "updated" } else f r

/-- Python dict insertion: a later pair with an existing key overwrites the
value stored at that key, a new key is appended at the end. -/
def pythonDictInsert (acc : List (String × Nat)) (p : String × Nat) : List (String × Nat) :=
  if acc.any (fun q => q.1 == p.1) then
    acc.map (fun q => if q.1 == p.1 then (q.1, p.2) else q)
  else
    acc ++ [p]

/-- The Python dict built from a list of pairs. -/
def dictOfPairs (l : List (String × Nat)) : List (String × Nat) :=
  l.foldl pythonDictInsert []

/-- The value of the last pair of the list carrying the key. -/
def lastLookup (l : List (String × Nat)) (k : String) : Option Nat :=
  (l.reverse.find? (fun p => p.1 == k)).map (fun p => p.2)

/-- Lookup in the Python dict built from a pair list. -/
def dictLookup (l : List (String × Nat)) (k : String) : Option Nat :=
  ((dictOfPairs l).find? (fun p => p.1 == k)).map (fun p => p.2)

/-- The deduplication of related versions (admin.py lines 368-377): the pairs
whose object id is None are all kept, the pairs with a real object id go
through a Python dict, keeping one pair per object id. -/
def dedupRelated (l : List (String × Nat)) : List (String × Nat) :=
  l.filter (fun p => p.1 == "None") ++ dictOfPairs (l.filter (fun p => p.1 != "None"))

/-- The store of the mutable reversion field dictionaries, keyed by the vid
of the owning Version. -/
structure Store where
  rows : List (Nat × Row)
deriving DecidableEq

/-- Reading the field dictionary of a version from the store. -/
def Store.get (s : Store) (v : Nat) : Row :=
  ((s.rows.find? (fun p => p.1 == v)).map (fun p => p.2)).getD []

/-- Mutating the field dictionary of a version in the store. -/
def Store.set (s : Store) (v : Nat) (r : Row) : Store :=
  if s.rows.any (fun p => p.1 == v) then
    ⟨s.rows.map (fun p => if p.1 == v then (v, r) else p)⟩
  else
    ⟨s.rows ++ [(v, r)]⟩

/-- Deleting a key from a field dictionary (del guarded by KeyError pass). -/
def eraseKey (r : Row) (k : String) : Row :=
  r.filter (fun p => p.1 != k)

/-- A live related object of the formset queryset: primary key and the field
data model_to_dict produces for it. -/
structure LiveObj where
  pk : Nat
  fields : Row
deriving DecidableEq

/-- An entry of the initial list: either literal row data built from a live
object, or a reference to the shared field dictionary of a version. -/
inductive InitialEntry where
  | lit (row : Row)
  | ref (vid : Nat)
deriving DecidableEq

/-- The row an initial entry denotes under the current store. -/
def resolveEntry (s : Store) : InitialEntry → Row
  | InitialEntry.lit row => row
  | InitialEntry.ref vid => s.get vid

/-- The entry the first reconstruction loop (admin.py lines 379-387) builds
for one live object: the field dictionary of the deduplicated version with
the same primary key when there is one, otherwise the live data of the
object with a DELETE marker added. -/
def liveEntry (rvs : List (String × Nat)) (o : LiveObj) : InitialEntry :=
  match dictLookup rvs (toString o.pk) with
  | some vid => InitialEntry.ref vid
  | none => InitialEntry.lit (o.fields ++ [("DELETE", "True")])

/-- The first reconstruction loop over the formset queryset. -/
def buildLiveInitial (rvs : List (String × Nat)) (qs : List LiveObj) : List InitialEntry :=
  qs.map (liveEntry rvs)

/-- The second reconstruction loop (admin.py lines 388-401): for every
deduplicated pair the id key is deleted from the shared field dictionary of
its version, and a reference to that dictionary is appended unless an equal
row is already in the initial list. -/
def appendRelated (rvs : List (String × Nat)) (initial : List InitialEntry) (s : Store) :
    List InitialEntry × Store :=
  match rvs with
  | [] => (initial, s)
  | p :: rest =>
    let rowNoId := eraseKey (s.get p.2) "id"
    let s2 := s.set p.2 rowNoId
    if rowNoId ∈ initial.map (resolveEntry s2) then appendRelated rest initial s2
    else appendRelated rest (initial ++ [InitialEntry.ref p.2]) s2

/-- The extraction of related versions (admin.py lines 368-371): the versions
of the revision whose model matches the formset model and whose foreign key
field points at the object being edited, paired with their object id. -/
def relatedVersionPairs (revisionVersions : List Version) (s : Store) (fkName : String)
    (formsetCt : Nat) (object_id : String) : List (String × Nat) :=
  (revisionVersions.filter (fun v =>
      v.content_type == formsetCt &&
      ((s.get v.vid).find? (fun p => p.1 == fkName)).map (fun p => p.2) == some object_id)).map
    (fun v => (v.object_id, v.vid))

/-- The GET branch of render_revision_form for one inline formset (admin.py
lines 341-407): extract and dedupe the related versions, build the initial
entries for the live queryset, then append the unmatched revision rows. -/
def renderRevisionInitial (revisionVersions : List Version) (s : Store) (fkName : String)
    (formsetCt : Nat) (object_id : Nat) (qs : List LiveObj) : List InitialEntry × Store :=
  let rvs := dedupRelated (relatedVersionPairs revisionVersions s fkName formsetCt (toString object_id))
  appendRelated rvs (buildLiveInitial rvs qs) s

/-- The errors a publish_view request can raise: the 404 of
get_object_or_404, or an error later in the request handling. -/
inductive PubError where
  | http404
  | requestError
deriving DecidableEq

/-- The non-error outcomes of publish_view. -/
inductive ViewOutcome where
  | redirectParent
  | redirectCurrent
  | renderedForm
deriving DecidableEq

/-- EasyPublisher.publish_view without its transaction wrapper (admin.py
lines 112-141 together with the POST branch of render_revision_form, lines
268-340): look up the object and the version or fail with 404, redirect with
a user message when the revision has no metadata for the request language,
on a valid POST run save_model, save_formset and update_draft and redirect
to the parent, and otherwise render the revision form. postError injects an
error raised later in the request handling, after the database writes. -/
def publish_view_body (modelCt : Nat) (object_id revision_id : Nat) (lang : String)
    (isPost hasPerm formsValid postError : Bool) (newObj : DbObj)
    (formsetInstances : List DbObj) (st : AppState) :
    Except PubError (ViewOutcome × AppState) :=
  match st.objects.find? (fun o => o.pk == object_id) with
  | none => Except.error PubError.http404
  | some obj =>
    match st.versions.find? (fun v =>
        v.revision == revision_id && v.object_id == toString obj.pk && v.content_type == modelCt) with
    | none => Except.error PubError.http404
    | some version =>
      if !(st.metadata.any (fun m => m.revision == revision_id && m.language == lang)) then
        Except.ok (ViewOutcome.redirectCurrent,
          { st with messages := st.messages ++ ["There is no draft available for language " ++ lang] })
      else if isPost && formsValid then
        let st1 := save_model hasPerm true newObj lang st
        let st2 := save_formset hasPerm formsetInstances lang st1
        let st3 := { st2 with metadata := update_draft hasPerm version st2.metadata st2.versions }
        let st4 := { st3 with messages := st3.messages ++ ["publisher message"] }
        if postError then Except.error PubError.requestError
        else Except.ok (ViewOutcome.redirectParent, st4)
      else
        Except.ok (ViewOutcome.renderedForm, st)

/-- Modelled from the spec: the transaction.commit_on_success decorator
applied to publish_view is Django framework code not present in the
repository. The spec states that persistence atomicity is delegated to the
framework's transaction management: on success the new state is committed,
on an error the state is rolled back unchanged. -/
def commit_on_success (body : AppState → Except PubError (ViewOutcome × AppState))
    (st : AppState) : Except PubError ViewOutcome × AppState :=
  match body st with
  | Except.ok (r, st2) => (Except.ok r, st2)
  | Except.error e => (Except.error e, st)

/-- EasyPublisher.publish_view: the body wrapped in the transaction. -/
def publish_view (modelCt : Nat) (object_id revision_id : Nat) (lang : String)
    (isPost hasPerm formsValid postError : Bool) (newObj : DbObj)
    (formsetInstances : List DbObj) (st : AppState) :
    Except PubError ViewOutcome × AppState :=
  commit_on_success
    (publish_view_body modelCt object_id revision_id lang isPost hasPerm formsValid postError
      newObj formsetInstances) st

/-- C1: save_model commits the object directly exactly when the user has the
publish permission; without it the only possible table write stores the row
unpublished, a metadata entry with status draft and the request language is
queued on the pending revision, and the object is registered in the revision
snapshot. -/
theorem C1_save_model_permission_gate (hasPerm change : Bool) (obj : DbObj) (lang : String) (st : AppState) :
    (hasPerm = true →
      save_model hasPerm change obj lang st = { st with objects := objSave st.objects obj }) ∧
    (hasPerm = false →
      (save_model hasPerm change obj lang st).pending_meta = st.pending_meta ++ [("draft", lang)] ∧
      (∃ r : DbObj, r.pk = obj.pk ∧
        (save_model hasPerm change obj lang st).registered = st.registered ++ [r]) ∧
      ((save_model hasPerm change obj lang st).objects = st.objects ∨
       (save_model hasPerm change obj lang st).objects =
         objSave st.objects { obj with published := some false })) := by
  constructor
  · intro h; subst h; simp [save_model]
  · intro h; subst h
    by_cases hc : (!change && obj.published.isSome) = true
    · exact ⟨by simp [save_model, hc],
        ⟨{ obj with published := some true }, rfl, by simp [save_model, hc]⟩,
        Or.inr (by simp [save_model, hc])⟩
    · exact ⟨by simp [save_model, hc],
        ⟨obj, rfl, by simp [save_model, hc]⟩,
        Or.inl (by simp [save_model, hc])⟩

/-- Witness for C1 at a concrete input, covering both permission values. -/
theorem C1_save_model_permission_gate_witness :
    (save_model true true ⟨1, none, [("q", "x")]⟩ "en" ⟨[], [], [], [], [], "", [], []⟩ =
      { (⟨[], [], [], [], [], "", [], []⟩ : AppState) with
          objects := objSave [] ⟨1, none, [("q", "x")]⟩ }) ∧
    ((save_model false true ⟨1, none, [("q", "x")]⟩ "en" ⟨[], [], [], [], [], "", [], []⟩).pending_meta =
      [] ++ [("draft", "en")] ∧
     (∃ r : DbObj, r.pk = 1 ∧
       (save_model false true ⟨1, none, [("q", "x")]⟩ "en" ⟨[], [], [], [], [], "", [], []⟩).registered =
         [] ++ [r]) ∧
     ((save_model false true ⟨1, none, [("q", "x")]⟩ "en" ⟨[], [], [], [], [], "", [], []⟩).objects = [] ∨
      (save_model false true ⟨1, none, [("q", "x")]⟩ "en" ⟨[], [], [], [], [], "", [], []⟩).objects =
        objSave [] { (⟨1, none, [("q", "x")]⟩ : DbObj) with published := some false })) :=
  ⟨(C1_save_model_permission_gate true true ⟨1, none, [("q", "x")]⟩ "en" ⟨[], [], [], [], [], "", [], []⟩).1 rfl,
   (C1_save_model_permission_gate false true ⟨1, none, [("q", "x")]⟩ "en" ⟨[], [], [], [], [], "", [], []⟩).2 rfl⟩

/-- C8: without the publish permission, creating a new object that has a
published attribute stores the row with published set to false while the
registered revision snapshot carries the object with published set to true. -/
theorem C8_unpublished_row_published_snapshot (obj : DbObj) (b : Bool) (lang : String) (st : AppState)
    (hpub : obj.published = some b) :
    (save_model false false obj lang st).objects =
      objSave st.objects { obj with published := some false } ∧
    (save_model false false obj lang st).registered =
      st.registered ++ [{ obj with published := some true }] := by
  constructor <;> simp [save_model, hpub]

/-- Witness for C8 at a concrete input. -/
theorem C8_unpublished_row_published_snapshot_witness :
    (save_model false false ⟨1, some true, []⟩ "en" ⟨[], [], [], [], [], "", [], []⟩).objects =
      objSave [] { (⟨1, some true, []⟩ : DbObj) with published := some false } ∧
    (save_model false false ⟨1, some true, []⟩ "en" ⟨[], [], [], [], [], "", [], []⟩).registered =
      [] ++ [{ (⟨1, some true, []⟩ : DbObj) with published := some true }] :=
  C8_unpublished_row_published_snapshot ⟨1, some true, []⟩ true "en" ⟨[], [], [], [], [], "", [], []⟩ rfl

/-- C10: has_draft counts the draft revisions of the object in the current
language, is nonzero exactly when at least one exists, and get_latest_draft
is the last element of the draft revision list, or none when it is empty. -/
theorem C10_has_draft_counts_and_latest (st : AppState) (object_id : String) (ct : Nat) (lang : String) :
    has_draft st object_id ct lang = st.revisions.countP (isDraftRevision st object_id ct lang) ∧
    (has_draft st object_id ct lang ≠ 0 ↔ get_draft_revisions st object_id ct lang ≠ []) ∧
    get_latest_draft st object_id ct lang = (get_draft_revisions st object_id ct lang).getLast? := by
  refine ⟨?_, ?_, ?_⟩
  · simp [has_draft, get_draft_revisions, List.countP_eq_length_filter]
  · simp [has_draft, List.length_eq_zero]
  · by_cases h : get_draft_revisions st object_id ct lang = []
    · simp [get_latest_draft, get_latest_draft_revision, h]
    · have hlen : ((get_draft_revisions st object_id ct lang).length != 0) = true := by
        simpa [List.length_eq_zero] using h
      simp [get_latest_draft, get_latest_draft_revision, hlen, List.getLast?_eq_getElem?]

/-- C3: when the object has a latest draft and the current flag is unset,
change_view redirects a user without the publish permission to the publish
view of the draft, and shows a user with the permission the normal editing
view. -/
theorem C3_draft_visibility (st : AppState) (object_id : String) (ct : Nat) (lang : String) (hasPerm : Bool) (pk : Nat)
    (hdraft : get_latest_draft st object_id ct lang = some pk) :
    (hasPerm = false →
      change_view st object_id ct lang hasPerm false = ChangeViewResult.redirectToDraft pk) ∧
    (hasPerm = true →
      change_view st object_id ct lang hasPerm false = ChangeViewResult.normalView (some pk)) := by
  constructor <;> intro h <;> subst h <;> simp [change_view, hdraft]

/-- Witness for C3 on a one-draft state, covering both permission values. -/
theorem C3_draft_visibility_witness :
    change_view ⟨[⟨3, none, []⟩], [7], [⟨0, 7, "3", 1⟩], [⟨0, 7, "draft", "en"⟩], [], "", [], []⟩
        "3" 1 "en" false false = ChangeViewResult.redirectToDraft 7 ∧
    change_view ⟨[⟨3, none, []⟩], [7], [⟨0, 7, "3", 1⟩], [⟨0, 7, "draft", "en"⟩], [], "", [], []⟩
        "3" 1 "en" true false = ChangeViewResult.normalView (some 7) :=
  ⟨(C3_draft_visibility ⟨[⟨3, none, []⟩], [7], [⟨0, 7, "3", 1⟩], [⟨0, 7, "draft", "en"⟩], [], "", [], []⟩
      "3" 1 "en" false 7 (by decide)).1 rfl,
   (C3_draft_visibility ⟨[⟨3, none, []⟩], [7], [⟨0, 7, "3", 1⟩], [⟨0, 7, "draft", "en"⟩], [], "", [], []⟩
      "3" 1 "en" true 7 (by decide)).2 rfl⟩

/-- Two records of a database with pairwise distinct primary keys that share
a primary key are the same record. -/
theorem mem_mid_inj {db : List EasyPublisherMetaData}
    (hnd : db.Pairwise (fun a b => a.mid ≠ b.mid)) :
    ∀ {r m : EasyPublisherMetaData}, r ∈ db → m ∈ db → r.mid = m.mid → r = m := by
  induction db with
  | nil => intro r m hr _ _; cases hr
  | cons a l ih =>
    intro r m hr hm hmid
    have hpair := List.pairwise_cons.mp hnd
    rcases List.mem_cons.mp hr with hr1 | hr1 <;> rcases List.mem_cons.mp hm with hm1 | hm1
    · rw [hr1, hm1]
    · rw [hr1] at hmid; exact absurd hmid (hpair.1 m hm1)
    · rw [hm1] at hmid; exact absurd hmid.symm (hpair.1 r hr1)
    · exact ih hpair.2 hr1 hm1 hmid

/-- Changing only the status of a record does not change whether it passes
the object filter of the decline loop. -/
theorem matchesObjectFilter_status (versions : List Version) (oid : String) (ct : Nat)
    (r : EasyPublisherMetaData) (s : String) :
    matchesObjectFilter versions oid ct { r with status := s } =
      matchesObjectFilter versions oid ct r := rfl

/-- One iteration of the update_draft loop with the publish permission, on a
database that is a status-only image of db0: decline everything matching,
then save the iterated record as published. -/
theorem stepPerm_map (versions : List Version) (oid : String) (ct : Nat)
    (db0 : List EasyPublisherMetaData) (f : EasyPublisherMetaData → EasyPublisherMetaData)
    (hf : statusOnly f) (m : EasyPublisherMetaData) (hm : m ∈ db0)
    (hnd : db0.Pairwise (fun a b => a.mid ≠ b.mid)) :
    saveMeta (declineAll versions oid ct (db0.map f)) { m with status := "published" } =
      db0.map (permStepFun versions oid ct m f) := by
  unfold permStepFun declineAll saveMeta
  rw [List.map_map, List.map_map]
  apply List.map_congr_left
  intro r hr
  obtain ⟨s, hs⟩ : ∃ s, f r = { r with status := s } := ⟨(f r).status, hf r⟩
  simp only [Function.comp]
  rw [hs]
  by_cases h1 : r.mid = m.mid
  · have hrm : r = m := mem_mid_inj hnd hr hm h1
    subst hrm
    by_cases h2 : matchesObjectFilter versions oid ct r = true <;>
      simp [h2, matchesObjectFilter_status]
  · by_cases h2 : matchesObjectFilter versions oid ct r = true <;>
      simp [h1, h2, matchesObjectFilter_status]

/-- One iteration of the update_draft loop without the publish permission:
save the iterated record as updated. -/
theorem stepUpd_map (db0 : List EasyPublisherMetaData)
    (f : EasyPublisherMetaData → EasyPublisherMetaData)
    (hf : statusOnly f) (m : EasyPublisherMetaData) (hm : m ∈ db0)
    (hnd : db0.Pairwise (fun a b => a.mid ≠ b.mid)) :
    saveMeta (db0.map f) { m with status := "updated" } =
      db0.map (updStepFun m f) := by
  unfold updStepFun saveMeta
  rw [List.map_map]
  apply List.map_congr_left
  intro r hr
  obtain ⟨s, hs⟩ : ∃ s, f r = { r with status := s } := ⟨(f r).status, hf r⟩
  simp only [Function.comp]
  rw [hs]
  by_cases h1 : r.mid = m.mid
  · have hrm : r = m := mem_mid_inj hnd hr hm h1
    subst hrm
    simp
  · simp [h1]

/-- The identity is a status-only transformation. -/
theorem statusOnly_id : statusOnly (fun r => r) := fun _ => rfl

/-- Overwriting the status on a tested branch preserves being status-only. -/
theorem statusOnly_ite (p : EasyPublisherMetaData → Bool) (a : String)
    (g : EasyPublisherMetaData → EasyPublisherMetaData) (hg : statusOnly g) :
    statusOnly (fun r => if p r then { r with status := a } else g r) := by
  intro r
  by_cases h : p r = true
  · simp [h]
  · simp only [h, Bool.false_eq_true, if_false, if_neg]
    simpa [h] using hg r

/-- The pointwise permission step is status-only. -/
theorem statusOnly_permStepFun (versions : List Version) (oid : String) (ct : Nat)
    (m : EasyPublisherMetaData) (f : EasyPublisherMetaData → EasyPublisherMetaData)
    (hf : statusOnly f) : statusOnly (permStepFun versions oid ct m f) :=
  statusOnly_ite (fun r => r.mid == m.mid) "published"
    (fun r => if matchesObjectFilter versions oid ct r then { r with status := "declined" } else f r)
    (statusOnly_ite (matchesObjectFilter versions oid ct) "declined" f hf)

/-- The pointwise no-permission step is status-only. -/
theorem statusOnly_updStepFun (m : EasyPublisherMetaData)
    (f : EasyPublisherMetaData → EasyPublisherMetaData)
    (hf : statusOnly f) : statusOnly (updStepFun m f) :=
  statusOnly_ite (fun r => r.mid == m.mid) "updated" f hf

/-- Folding the permission branch of the update_draft loop over a nonempty
snapshot turns a status-only image of the database into the database with the
last snapshot record published, every object-matching record declined, and
every other record left as it was. -/
theorem permFold_map (versions : List Version) (oid : String) (ct : Nat)
    (db0 : List EasyPublisherMetaData)
    (hnd : db0.Pairwise (fun a b => a.mid ≠ b.mid)) :
    ∀ (ms : List EasyPublisherMetaData) (f : EasyPublisherMetaData → EasyPublisherMetaData),
      statusOnly f →
      (∀ m ∈ ms, m ∈ db0 ∧ matchesObjectFilter versions oid ct m = true) →
      ∀ mlast, ms.getLast? = some mlast →
      ms.foldl (fun acc m => saveMeta (declineAll versions oid ct acc) { m with status := "published" }) (db0.map f) =
        db0.map (fun r =>
          if r.mid == mlast.mid then { r with status := "published" }
          else if matchesObjectFilter versions oid ct r then { r with status := "declined" }
          else f r) := by
  intro ms
  induction ms with
  | nil => intro f hf hms mlast hlast; simp at hlast
  | cons m ms ih =>
    intro f hf hms mlast hlast
    have hm := hms m (List.mem_cons_self m ms)
    rw [List.foldl_cons, stepPerm_map versions oid ct db0 f hf m hm.1 hnd]
    cases ms with
    | nil =>
      have hml : m = mlast := by simpa using hlast
      subst hml
      rw [List.foldl_nil]
      rfl
    | cons m2 ms2 =>
      have hlast2 : (m2 :: ms2).getLast? = some mlast := by
        rw [← hlast]; rfl
      rw [ih (permStepFun versions oid ct m f)
        (statusOnly_permStepFun versions oid ct m f hf)
        (fun x hx => hms x (List.mem_cons_of_mem m hx)) mlast hlast2]
      apply List.map_congr_left
      intro r hr
      by_cases h1 : (r.mid == mlast.mid) = true
      · simp [h1]
      · by_cases h2 : matchesObjectFilter versions oid ct r = true
        · simp [h1, h2]
        · simp only [h1, h2, Bool.false_eq_true, if_false]
          unfold permStepFun
          by_cases h3 : (r.mid == m.mid) = true
          · have hrm : r = m := mem_mid_inj hnd hr hm.1 (by simpa using h3)
            rw [hrm] at h2
            exact absurd hm.2 h2
          · simp [h3, h2]

/-- Folding the no-permission branch of the update_draft loop over a snapshot
turns a status-only image of the database into the database with every record
whose key occurs in the snapshot saved as updated. -/
theorem updFold_map (db0 : List EasyPublisherMetaData)
    (hnd : db0.Pairwise (fun a b => a.mid ≠ b.mid)) :
    ∀ (ms : List EasyPublisherMetaData) (f : EasyPublisherMetaData → EasyPublisherMetaData),
      statusOnly f →
      (∀ m ∈ ms, m ∈ db0) →
      ms.foldl (fun acc m => saveMeta acc { m with status := "updated" }) (db0.map f) =
        db0.map (fun r =>
          if ms.any (fun q => q.mid == r.mid) then { r with status := "updated" } else f r) := by
  intro ms
  induction ms with
  | nil =>
    intro f hf hms
    simp only [List.foldl_nil, List.any_nil, Bool.false_eq_true, if_false]
  | cons m ms ih =>
    intro f hf hms
    rw [List.foldl_cons, stepUpd_map db0 f hf m (hms m (List.mem_cons_self m ms)) hnd,
      ih (updStepFun m f) (statusOnly_updStepFun m f hf)
        (fun x hx => hms x (List.mem_cons_of_mem m hx))]
    apply List.map_congr_left
    intro r hr
    by_cases h1 : (m.mid == r.mid) = true
    · have h1r : (r.mid == m.mid) = true := by simp at h1 ⊢; omega
      by_cases h2 : ms.any (fun q => q.mid == r.mid) = true <;>
        simp [h1, h2, updStepFun, h1r]
    · have h1r : (r.mid == m.mid) = false := by simp at h1 ⊢; omega
      by_cases h2 : ms.any (fun q => q.mid == r.mid) = true <;>
        simp [h1, h2, updStepFun, h1r]

/-- C2 counterexample: on a revision carrying two draft metadata records (two
languages), update_draft with the publish permission does not leave every
metadata record of the revision published: the later iteration re-declines
the record published by the earlier one. -/
theorem C2_publish_status_counterexample :
    ¬ (∀ m ∈ update_draft true ⟨0, 5, "1", 1⟩
          [⟨0, 5, "draft", "en"⟩, ⟨1, 5, "draft", "fr"⟩] [⟨0, 5, "1", 1⟩],
        m.revision = 5 → m.status = "published") := by decide

/-- C2 amended: without the publish permission every metadata record of the
revision of the version is saved with status updated; with the permission the
last metadata record of the revision ends published while every other
object-matching metadata record, the earlier records of the same revision
included, ends declined, and unrelated records are untouched. -/
theorem C2_update_draft_state_machine (hasPerm : Bool) (version : Version)
    (db : List EasyPublisherMetaData) (versions : List Version)
    (hv : version ∈ versions)
    (hnd : db.Pairwise (fun a b => a.mid ≠ b.mid)) :
    (hasPerm = false →
      update_draft hasPerm version db versions =
        db.map (fun r =>
          if r.revision == version.revision then { r with status := "updated" } else r)) ∧
    (hasPerm = true →
      (metasOfRevision db version.revision = [] →
        update_draft hasPerm version db versions = db) ∧
      (∀ mlast, (metasOfRevision db version.revision).getLast? = some mlast →
        update_draft hasPerm version db versions =
          db.map (fun r =>
            if r.mid == mlast.mid then { r with status := "published" }
            else if matchesObjectFilter versions version.object_id version.content_type r then
              { r with status := "declined" }
            else r))) := by
  constructor
  · intro h; subst h
    unfold update_draft
    simp only [Bool.false_eq_true, if_false]
    have h2 := updFold_map db hnd (metasOfRevision db version.revision) (fun r => r)
      statusOnly_id (fun m hm => (List.mem_filter.mp hm).1)
    rw [List.map_id'] at h2
    rw [h2]
    apply List.map_congr_left
    intro r hr
    by_cases h3 : (metasOfRevision db version.revision).any (fun q => q.mid == r.mid) = true
    · obtain ⟨q, hq, hqm⟩ := List.any_eq_true.mp h3
      have hq1 := List.mem_filter.mp hq
      have hqr : q = r := mem_mid_inj hnd hq1.1 hr (by simpa using hqm)
      have hrev : (r.revision == version.revision) = true := by rw [← hqr]; simpa using hq1.2
      simp [h3, hrev]
    · cases hb : (r.revision == version.revision) with
      | false => simp [h3, hb]
      | true =>
        exact absurd (List.any_eq_true.mpr ⟨r, List.mem_filter.mpr ⟨hr, hb⟩, by simp⟩) h3
  · intro h; subst h
    unfold update_draft
    simp only [if_true]
    constructor
    · intro hempty
      rw [hempty, List.foldl_nil]
    · intro mlast hlast
      have hms : ∀ m ∈ metasOfRevision db version.revision,
          m ∈ db ∧ matchesObjectFilter versions version.object_id version.content_type m = true := by
        intro m hm
        have h3 := List.mem_filter.mp hm
        refine ⟨h3.1, List.any_eq_true.mpr ⟨version, hv, ?_⟩⟩
        have hrev : m.revision = version.revision := by simpa using h3.2
        simp [hrev]
      have h2 := permFold_map versions version.object_id version.content_type db hnd
        (metasOfRevision db version.revision) (fun r => r) statusOnly_id hms mlast hlast
      rw [List.map_id'] at h2
      rw [h2]

/-- Witness for the amended C2 on the concrete two-language revision,
covering both permission values. -/
theorem C2_update_draft_state_machine_witness :
    (update_draft false ⟨0, 5, "1", 1⟩
        [⟨0, 5, "draft", "en"⟩, ⟨1, 5, "draft", "fr"⟩] [⟨0, 5, "1", 1⟩] =
      List.map (fun r =>
          if r.revision == (⟨0, 5, "1", 1⟩ : Version).revision then
            { r with status := "updated" } else r)
        [⟨0, 5, "draft", "en"⟩, ⟨1, 5, "draft", "fr"⟩]) ∧
    (update_draft true ⟨0, 5, "1", 1⟩
        [⟨0, 5, "draft", "en"⟩, ⟨1, 5, "draft", "fr"⟩] [⟨0, 5, "1", 1⟩] =
      List.map (fun r =>
          if r.mid == (⟨1, 5, "draft", "fr"⟩ : EasyPublisherMetaData).mid then
            { r with status := "published" }
          else if matchesObjectFilter [⟨0, 5, "1", 1⟩] (Version.object_id ⟨0, 5, "1", 1⟩)
              (Version.content_type ⟨0, 5, "1", 1⟩) r then
            { r with status := "declined" }
          else r)
        [⟨0, 5, "draft", "en"⟩, ⟨1, 5, "draft", "fr"⟩]) :=
  ⟨(C2_update_draft_state_machine false ⟨0, 5, "1", 1⟩
      [⟨0, 5, "draft", "en"⟩, ⟨1, 5, "draft", "fr"⟩] [⟨0, 5, "1", 1⟩]
      (by decide) (by decide)).1 rfl,
   ((C2_update_draft_state_machine true ⟨0, 5, "1", 1⟩
      [⟨0, 5, "draft", "en"⟩, ⟨1, 5, "draft", "fr"⟩] [⟨0, 5, "1", 1⟩]
      (by decide) (by decide)).2 rfl).2 ⟨1, 5, "draft", "fr"⟩ (by decide)⟩

/-- C6: publish_view fails with 404 and leaves the state unchanged when the
object id matches no model instance, or when no version for the revision id
matches the object's primary key and the model content type. -/
theorem C6_publish_view_missing_404 (modelCt object_id revision_id : Nat) (lang : String)
    (isPost hasPerm formsValid postError : Bool) (newObj : DbObj)
    (formsetInstances : List DbObj) (st : AppState) :
    (st.objects.find? (fun o => o.pk == object_id) = none →
      publish_view modelCt object_id revision_id lang isPost hasPerm formsValid postError
          newObj formsetInstances st = (Except.error PubError.http404, st)) ∧
    (∀ obj, st.objects.find? (fun o => o.pk == object_id) = some obj →
      st.versions.find? (fun v =>
        v.revision == revision_id && v.object_id == toString obj.pk && v.content_type == modelCt) = none →
      publish_view modelCt object_id revision_id lang isPost hasPerm formsValid postError
          newObj formsetInstances st = (Except.error PubError.http404, st)) := by
  constructor
  · intro h
    simp [publish_view, commit_on_success, publish_view_body, h]
  · intro obj h1 h2
    simp [publish_view, commit_on_success, publish_view_body, h1, h2]

/-- Witness for C6 on concrete states: an unknown object id, and a known
object with no matching version. -/
theorem C6_publish_view_missing_404_witness :
    (publish_view 1 2 5 "en" false false false false ⟨2, none, []⟩ []
        ⟨[], [], [], [], [], "", [], []⟩ =
      (Except.error PubError.http404, ⟨[], [], [], [], [], "", [], []⟩)) ∧
    (publish_view 1 2 5 "en" false false false false ⟨2, none, []⟩ []
        ⟨[⟨2, none, []⟩], [], [], [], [], "", [], []⟩ =
      (Except.error PubError.http404, ⟨[⟨2, none, []⟩], [], [], [], [], "", [], []⟩)) :=
  ⟨(C6_publish_view_missing_404 1 2 5 "en" false false false false ⟨2, none, []⟩ []
      ⟨[], [], [], [], [], "", [], []⟩).1 rfl,
   (C6_publish_view_missing_404 1 2 5 "en" false false false false ⟨2, none, []⟩ []
      ⟨[⟨2, none, []⟩], [], [], [], [], "", [], []⟩).2 ⟨2, none, []⟩ rfl rfl⟩

/-- C9: when the object and the version exist but the revision has no
metadata record for the request language, publish_view only records the user
message and redirects to ../../current, leaving every table unchanged. -/
theorem C9_no_draft_for_language (modelCt object_id revision_id : Nat) (lang : String)
    (isPost hasPerm formsValid postError : Bool) (newObj : DbObj)
    (formsetInstances : List DbObj) (st : AppState) (obj : DbObj) (version : Version)
    (h1 : st.objects.find? (fun o => o.pk == object_id) = some obj)
    (h2 : st.versions.find? (fun v =>
        v.revision == revision_id && v.object_id == toString obj.pk && v.content_type == modelCt) =
      some version)
    (h3 : st.metadata.any (fun m => m.revision == revision_id && m.language == lang) = false) :
    publish_view modelCt object_id revision_id lang isPost hasPerm formsValid postError
        newObj formsetInstances st =
      (Except.ok ViewOutcome.redirectCurrent,
       { st with messages := st.messages ++ ["There is no draft available for language " ++ lang] }) := by
  simp [publish_view, commit_on_success, publish_view_body, h1, h2, h3]

/-- Witness for C9 on a concrete state holding a draft only for another
language. -/
theorem C9_no_draft_for_language_witness :
    publish_view 1 2 5 "fr" false false false false ⟨2, none, []⟩ []
        ⟨[⟨2, none, []⟩], [5], [⟨0, 5, "2", 1⟩], [⟨0, 5, "draft", "en"⟩], [], "", [], []⟩ =
      (Except.ok ViewOutcome.redirectCurrent,
       { (⟨[⟨2, none, []⟩], [5], [⟨0, 5, "2", 1⟩], [⟨0, 5, "draft", "en"⟩], [], "", [], []⟩ : AppState) with
           messages := [] ++ ["There is no draft available for language " ++ "fr"] }) :=
  C9_no_draft_for_language 1 2 5 "fr" false false false false ⟨2, none, []⟩ []
    ⟨[⟨2, none, []⟩], [5], [⟨0, 5, "2", 1⟩], [⟨0, 5, "draft", "en"⟩], [], "", [], []⟩
    ⟨2, none, []⟩ ⟨0, 5, "2", 1⟩ (by decide) (by decide) (by decide)

/-- C7: the transaction wrapper commits all changes of a publish_view
request together: when the body succeeds the whole new state is persisted,
and when any error is raised during the request the original state is kept
unchanged, even after the body performed writes. -/
theorem C7_publish_view_transactional (modelCt object_id revision_id : Nat) (lang : String)
    (isPost hasPerm formsValid postError : Bool) (newObj : DbObj)
    (formsetInstances : List DbObj) (st : AppState) :
    (∀ e, publish_view_body modelCt object_id revision_id lang isPost hasPerm formsValid postError
        newObj formsetInstances st = Except.error e →
      publish_view modelCt object_id revision_id lang isPost hasPerm formsValid postError
        newObj formsetInstances st = (Except.error e, st)) ∧
    (∀ r st2, publish_view_body modelCt object_id revision_id lang isPost hasPerm formsValid postError
        newObj formsetInstances st = Except.ok (r, st2) →
      publish_view modelCt object_id revision_id lang isPost hasPerm formsValid postError
        newObj formsetInstances st = (Except.ok r, st2)) := by
  constructor
  · intro e h
    simp [publish_view, commit_on_success, h]
  · intro r st2 h
    simp [publish_view, commit_on_success, h]

/-- Witness for C7: a valid POST whose request errors after the writes rolls
back to the original state, and the same POST without the error commits the
written state. -/
theorem C7_publish_view_transactional_witness :
    (publish_view 1 2 5 "en" true true true true ⟨2, none, [("q", "y")]⟩ []
        ⟨[⟨2, none, []⟩], [5], [⟨0, 5, "2", 1⟩], [⟨0, 5, "draft", "en"⟩], [], "", [], []⟩ =
      (Except.error PubError.requestError,
       ⟨[⟨2, none, []⟩], [5], [⟨0, 5, "2", 1⟩], [⟨0, 5, "draft", "en"⟩], [], "", [], []⟩)) ∧
    (publish_view 1 2 5 "en" true true true false ⟨2, none, [("q", "y")]⟩ []
        ⟨[⟨2, none, []⟩], [5], [⟨0, 5, "2", 1⟩], [⟨0, 5, "draft", "en"⟩], [], "", [], []⟩ =
      (Except.ok ViewOutcome.redirectParent,
       ⟨[⟨2, none, [("q", "y")]⟩], [5], [⟨0, 5, "2", 1⟩], [⟨0, 5, "published", "en"⟩],
        [], "", [], ["publisher message"]⟩)) :=
  ⟨(C7_publish_view_transactional 1 2 5 "en" true true true true ⟨2, none, [("q", "y")]⟩ []
      ⟨[⟨2, none, []⟩], [5], [⟨0, 5, "2", 1⟩], [⟨0, 5, "draft", "en"⟩], [], "", [], []⟩).1
      PubError.requestError (by rfl),
   (C7_publish_view_transactional 1 2 5 "en" true true true false ⟨2, none, [("q", "y")]⟩ []
      ⟨[⟨2, none, []⟩], [5], [⟨0, 5, "2", 1⟩], [⟨0, 5, "draft", "en"⟩], [], "", [], []⟩).2
      ViewOutcome.redirectParent
      ⟨[⟨2, none, [("q", "y")]⟩], [5], [⟨0, 5, "2", 1⟩], [⟨0, 5, "published", "en"⟩],
       [], "", [], ["publisher message"]⟩ (by rfl)⟩

/-- Inserting a pair into the Python dict: the value found for a key is the
inserted value when the pair carries that key, and the previous one else. -/
theorem pythonDictInsert_find (acc : List (String × Nat)) (p : String × Nat) (k : String) :
    ((pythonDictInsert acc p).find? (fun q => q.1 == k)).map (fun q => q.2) =
      if p.1 == k then some p.2
      else (acc.find? (fun q => q.1 == k)).map (fun q => q.2) := by
  unfold pythonDictInsert
  by_cases hmem : acc.any (fun q => q.1 == p.1) = true
  · rw [if_pos hmem, List.find?_map]
    have hpred : ((fun q : String × Nat => q.1 == k) ∘
        (fun q : String × Nat => if q.1 == p.1 then (q.1, p.2) else q)) =
        (fun q : String × Nat => q.1 == k) := by
      funext q
      by_cases h : (q.1 == p.1) = true <;> simp [Function.comp, h]
    rw [hpred]
    cases hfind : acc.find? (fun q => q.1 == k) with
    | none =>
      have hall := List.find?_eq_none.mp hfind
      have hpk : (p.1 == k) = false := by
        cases hpk : (p.1 == k) with
        | false => rfl
        | true =>
          obtain ⟨x, hx, hxk⟩ := List.any_eq_true.mp hmem
          have hx1 : x.1 = p.1 := by simpa using hxk
          have hk : p.1 = k := by simpa using hpk
          exact absurd (by simp [hx1, hk]) (hall x hx)
      simp [hpk]
    | some q0 =>
      have hq0 : ((fun q : String × Nat => q.1 == k) q0) = true :=
        List.find?_some (p := fun q : String × Nat => q.1 == k) hfind
      have hq0e : q0.1 = k := by simpa using hq0
      by_cases hpk : (p.1 == k) = true
      · have hqp : q0.1 = p.1 := by
          have : p.1 = k := by simpa using hpk
          simp [hq0e, this]
        simp [hpk, hqp]
      · have hqp : ¬ q0.1 = p.1 := by
          intro hq
          exact absurd (by simp [← hq, hq0e]) hpk
        simp [hpk, hqp]
  · rw [if_neg hmem, List.find?_append]
    by_cases hpk : (p.1 == k) = true
    · have hnone : acc.find? (fun q => q.1 == k) = none := by
        refine List.find?_eq_none.mpr (fun x hx hxk => ?_)
        refine hmem (List.any_eq_true.mpr ⟨x, hx, ?_⟩)
        have hx1 : x.1 = k := by simpa using hxk
        have hk : p.1 = k := by simpa using hpk
        simp [hx1, hk]
      simp [hnone, hpk]
    · have hsingle : List.find? (fun q => q.1 == k) [p] = none := by
        simp [List.find?_cons, hpk]
      simp [hsingle, hpk, Option.or_none]

/-- Building the Python dict of a list extended on the right is inserting
the new pair into the dict of the list. -/
theorem dictOfPairs_concat (l : List (String × Nat)) (p : String × Nat) :
    dictOfPairs (l ++ [p]) = pythonDictInsert (dictOfPairs l) p := by
  simp [dictOfPairs, List.foldl_append]

/-- The last value of a key in a list extended on the right. -/
theorem lastLookup_concat (l : List (String × Nat)) (p : String × Nat) (k : String) :
    lastLookup (l ++ [p]) k = if p.1 == k then some p.2 else lastLookup l k := by
  unfold lastLookup
  rw [List.reverse_append]
  by_cases hpk : (p.1 == k) = true <;> simp [List.find?_cons, hpk]

/-- The value the Python dict of a pair list stores for a key is the value
of the last pair of the list carrying that key. -/
theorem dictOfPairs_find (l : List (String × Nat)) (k : String) :
    ((dictOfPairs l).find? (fun q => q.1 == k)).map (fun q => q.2) = lastLookup l k := by
  induction l using List.reverseRecOn with
  | nil => simp [dictOfPairs, lastLookup]
  | append_singleton l p ih =>
    rw [dictOfPairs_concat, pythonDictInsert_find, lastLookup_concat, ih]

/-- Inserting into the Python dict preserves pairwise distinct keys. -/
theorem pythonDictInsert_pairwise (acc : List (String × Nat)) (p : String × Nat)
    (h : acc.Pairwise (fun a b => a.1 ≠ b.1)) :
    (pythonDictInsert acc p).Pairwise (fun a b => a.1 ≠ b.1) := by
  unfold pythonDictInsert
  by_cases hmem : acc.any (fun q => q.1 == p.1) = true
  · rw [if_pos hmem]
    refine List.pairwise_map.mpr (List.Pairwise.imp ?_ h)
    intro a b hab
    by_cases ha : (a.1 == p.1) = true <;> by_cases hb : (b.1 == p.1) = true <;>
      simp [ha, hb, hab]
  · rw [if_neg hmem]
    refine List.pairwise_append.mpr ⟨h, List.pairwise_singleton _ _, ?_⟩
    intro a ha b hb
    have hb1 : b = p := by simpa using hb
    subst hb1
    intro hab
    have := List.any_eq_false.mp (Bool.eq_false_iff.mpr hmem) a ha
    exact this (by simp [hab])

/-- The Python dict of a pair list has pairwise distinct keys. -/
theorem dictOfPairs_pairwise (l : List (String × Nat)) :
    (dictOfPairs l).Pairwise (fun a b => a.1 ≠ b.1) := by
  induction l using List.reverseRecOn with
  | nil => simp [dictOfPairs]
  | append_singleton l p ih =>
    rw [dictOfPairs_concat]
    exact pythonDictInsert_pairwise _ p ih

/-- A list with pairwise distinct keys holds at most one pair per key. -/
theorem pairwise_keys_countP_le_one (l : List (String × Nat))
    (h : l.Pairwise (fun a b => a.1 ≠ b.1)) (k : String) :
    l.countP (fun q => q.1 == k) ≤ 1 := by
  induction l with
  | nil => simp
  | cons a t ih =>
    have hpair := List.pairwise_cons.mp h
    by_cases ha : (a.1 == k) = true
    · rw [List.countP_cons_of_pos (p := fun q : String × Nat => q.1 == k) t ha]
      have hzero : t.countP (fun q => q.1 == k) = 0 := by
        refine List.countP_eq_zero.mpr (fun b hb hbk => ?_)
        have hb1 : b.1 = k := by simpa using hbk
        have ha1 : a.1 = k := by simpa using ha
        exact hpair.1 b hb (ha1.trans hb1.symm)
      omega
    · rw [List.countP_cons_of_neg (p := fun q : String × Nat => q.1 == k) t (by simpa using ha)]
      exact ih hpair.2

/-- Searching a filtered list for a predicate that entails the filter gives
the same result as searching the full list. -/
theorem find?_filter_of_imp (l : List (String × Nat)) (p q : String × Nat → Bool)
    (himp : ∀ a, p a = true → q a = true) :
    (l.filter q).find? p = l.find? p := by
  induction l with
  | nil => simp
  | cons a t ih =>
    by_cases hq : q a = true
    · rw [List.filter_cons_of_pos hq]
      by_cases hp : p a = true
      · simp [List.find?_cons, hp]
      · simp only [List.find?_cons]
        cases hpa : p a with
        | true => exact absurd hpa hp
        | false => exact ih
    · rw [List.filter_cons_of_neg (by simpa using hq)]
      have hp : p a = false := by
        cases hpa : p a with
        | false => rfl
        | true => exact absurd (himp a hpa) (by simpa using hq)
      rw [ih, List.find?_cons, hp]

/-- C4: deduplication of related versions keeps every pair whose object id
is None, and keeps exactly the last occurrence per real object id, so after
deduplication each real object id appears at most once and its value is the
value of the last pair carrying it. -/
theorem C4_dedup_related (l : List (String × Nat)) :
    (dedupRelated l).filter (fun p => p.1 == "None") = l.filter (fun p => p.1 == "None") ∧
    (∀ k, k ≠ "None" →
      ((dedupRelated l).find? (fun p => p.1 == k)).map (fun p => p.2) = lastLookup l k ∧
      (dedupRelated l).countP (fun p => p.1 == k) ≤ 1) := by
  have hdict := dictOfPairs_pairwise (l.filter (fun p => p.1 != "None"))
  have hnone : ∀ q ∈ dictOfPairs (l.filter (fun p => p.1 != "None")), ¬ (q.1 == "None") = true := by
    intro q hq hqn
    have hsome : ((dictOfPairs (l.filter (fun p => p.1 != "None"))).find?
        (fun p => p.1 == "None")).isSome := by
      rw [List.find?_isSome]
      exact ⟨q, hq, hqn⟩
    have hlast : lastLookup (l.filter (fun p => p.1 != "None")) "None" = none := by
      unfold lastLookup
      rw [← List.filter_reverse]
      have : (l.reverse.filter (fun p => p.1 != "None")).find? (fun p => p.1 == "None") = none := by
        refine List.find?_eq_none.mpr (fun x hx hxk => ?_)
        have hx1 : (x.1 != "None") = true := (List.mem_filter.mp hx).2
        have hx2 : x.1 = "None" := by simpa using hxk
        simp [hx2] at hx1
      rw [this]
      rfl
    rw [← dictOfPairs_find] at hlast
    cases hfind : (dictOfPairs (l.filter (fun p => p.1 != "None"))).find? (fun p => p.1 == "None") with
    | none => rw [hfind] at hsome; simp at hsome
    | some q2 => rw [hfind] at hlast; simp at hlast
  refine ⟨?_, ?_⟩
  · unfold dedupRelated
    rw [List.filter_append]
    have h1 : (l.filter (fun p => p.1 == "None")).filter (fun p => p.1 == "None") =
        l.filter (fun p => p.1 == "None") := by
      rw [List.filter_filter]
      have he : (fun a : String × Nat => (a.1 == "None") && (a.1 == "None")) =
          (fun a : String × Nat => a.1 == "None") := by
        funext a
        exact Bool.and_self _
      rw [he]
    have h2 : (dictOfPairs (l.filter (fun p => p.1 != "None"))).filter
        (fun p => p.1 == "None") = [] := List.filter_eq_nil_iff.mpr hnone
    rw [h1, h2, List.append_nil]
  · intro k hk
    have hnonepart : ∀ x ∈ l.filter (fun p => p.1 == "None"), ¬ ((x.1 == k) = true) := by
      intro x hx hxk
      have hx1 : (x.1 == "None") = true := (List.mem_filter.mp hx).2
      have hx2 : x.1 = "None" := by simpa using hx1
      have hx3 : x.1 = k := by simpa using hxk
      exact hk (hx3.symm.trans hx2)
    constructor
    · unfold dedupRelated
      rw [List.find?_append, List.find?_eq_none.mpr hnonepart]
      have hor : ∀ o : Option (String × Nat), Option.or none o = o := fun o => by
        cases o <;> rfl
      rw [hor, dictOfPairs_find]
      unfold lastLookup
      rw [← List.filter_reverse, find?_filter_of_imp]
      intro a hpa
      have ha : a.1 = k := by simpa using hpa
      have hne : a.1 ≠ "None" := by rw [ha]; exact hk
      simpa using hne
    · unfold dedupRelated
      rw [List.countP_append, List.countP_eq_zero.mpr hnonepart]
      simpa using pairwise_keys_countP_le_one _ hdict k

/-- Witness for C4 on a concrete list with duplicate None and real ids. -/
theorem C4_dedup_related_witness :
    ((dedupRelated [("None", 1), ("2", 10), ("None", 3), ("2", 20)]).filter
        (fun p => p.1 == "None") =
      [("None", 1), ("2", 10), ("None", 3), ("2", 20)].filter (fun p => p.1 == "None")) ∧
    (((dedupRelated [("None", 1), ("2", 10), ("None", 3), ("2", 20)]).find?
        (fun p => p.1 == "2")).map (fun p => p.2) =
      lastLookup [("None", 1), ("2", 10), ("None", 3), ("2", 20)] "2" ∧
     (dedupRelated [("None", 1), ("2", 10), ("None", 3), ("2", 20)]).countP
        (fun p => p.1 == "2") ≤ 1) :=
  ⟨(C4_dedup_related [("None", 1), ("2", 10), ("None", 3), ("2", 20)]).1,
   (C4_dedup_related [("None", 1), ("2", 10), ("None", 3), ("2", 20)]).2 "2" (by decide)⟩

/-- Reading the field dictionary just written to the store. -/
theorem Store.get_set_self (s : Store) (v : Nat) (r : Row) : (s.set v r).get v = r := by
  unfold Store.set Store.get
  by_cases h : s.rows.any (fun p => p.1 == v) = true
  · rw [if_pos h]
    simp only [List.find?_map]
    have hpred : ((fun p : Nat × Row => p.1 == v) ∘
        (fun p : Nat × Row => if p.1 == v then (v, r) else p)) =
        (fun p : Nat × Row => p.1 == v) := by
      funext p
      by_cases hp : (p.1 == v) = true <;> simp [Function.comp, hp]
    rw [hpred]
    obtain ⟨q0, hfind⟩ : ∃ q0, s.rows.find? (fun p => p.1 == v) = some q0 := by
      have := List.find?_isSome.mpr (List.any_eq_true.mp h)
      cases hf : s.rows.find? (fun p => p.1 == v) with
      | none => rw [hf] at this; simp at this
      | some q0 => exact ⟨q0, rfl⟩
    have hq0 : ((fun p : Nat × Row => p.1 == v) q0) = true :=
      List.find?_some (p := fun p : Nat × Row => p.1 == v) hfind
    have hq0e : q0.1 = v := by simpa using hq0
    simp [hfind, hq0e]
  · rw [if_neg h]
    have hnone : s.rows.find? (fun p => p.1 == v) = none := by
      refine List.find?_eq_none.mpr (fun x hx hxv => ?_)
      exact h (List.any_eq_true.mpr ⟨x, hx, hxv⟩)
    simp [List.find?_append, hnone]

/-- Reading an untouched field dictionary after a write to another one. -/
theorem Store.get_set_ne (s : Store) (v w : Nat) (r : Row) (hvw : w ≠ v) :
    (s.set v r).get w = s.get w := by
  unfold Store.set Store.get
  by_cases h : s.rows.any (fun p => p.1 == v) = true
  · rw [if_pos h]
    simp only [List.find?_map]
    have hpred : ((fun p : Nat × Row => p.1 == w) ∘
        (fun p : Nat × Row => if p.1 == v then (v, r) else p)) =
        (fun p : Nat × Row => p.1 == w) := by
      funext p
      by_cases hp : (p.1 == v) = true
      · have hp1 : p.1 = v := by simpa using hp
        simp [Function.comp, hp, hp1]
      · simp [Function.comp, hp]
    rw [hpred]
    cases hfind : s.rows.find? (fun p => p.1 == w) with
    | none => simp
    | some q0 =>
      have hq0 : ((fun p : Nat × Row => p.1 == w) q0) = true :=
        List.find?_some (p := fun p : Nat × Row => p.1 == w) hfind
      have hq0e : q0.1 = w := by simpa using hq0
      have hq0v : ¬ q0.1 = v := by
        rw [hq0e]
        exact hvw
      simp [hfind, hq0v]
  · rw [if_neg h]
    have hsingle : List.find? (fun p => p.1 == w) [(v, r)] = none := by
      have hvwb : ((v : Nat) == w) = false := by
        simp
        exact fun hh => hvw hh.symm
      simp [List.find?_cons, hvwb]
    simp [List.find?_append, hsingle]

/-- Deleting a key twice deletes it once. -/
theorem eraseKey_idem (r : Row) (k : String) : eraseKey (eraseKey r k) k = eraseKey r k := by
  unfold eraseKey
  rw [List.filter_filter]
  have he : (fun a : String × String => (a.1 != k) && (a.1 != k)) =
      (fun a : String × String => a.1 != k) := by
    funext a
    exact Bool.and_self _
  rw [he]

/-- An entry resolving to a row without the id key still resolves to it
after the id key of any field dictionary is deleted in the store. -/
theorem resolve_set_stable (s : Store) (v : Nat) (e : InitialEntry) (row : Row)
    (hrow : eraseKey row "id" = row)
    (h : resolveEntry s e = row) :
    resolveEntry (s.set v (eraseKey (s.get v) "id")) e = row := by
  cases e with
  | lit r => exact h
  | ref u =>
    simp only [resolveEntry] at h ⊢
    by_cases huv : u = v
    · subst huv
      rw [Store.get_set_self, h, hrow]
    · rw [Store.get_set_ne s v u _ huv]
      exact h

/-- Unfolding one iteration of the second reconstruction loop. -/
theorem appendRelated_cons (p : String × Nat) (rest : List (String × Nat))
    (initial : List InitialEntry) (s : Store) :
    appendRelated (p :: rest) initial s =
      if eraseKey (s.get p.2) "id" ∈
          initial.map (resolveEntry (s.set p.2 (eraseKey (s.get p.2) "id"))) then
        appendRelated rest initial (s.set p.2 (eraseKey (s.get p.2) "id"))
      else
        appendRelated rest (initial ++ [InitialEntry.ref p.2])
          (s.set p.2 (eraseKey (s.get p.2) "id")) := rfl

/-- The second reconstruction loop only ever deletes the id key of a stored
field dictionary: each dictionary ends as it started or with id deleted. -/
theorem appendRelated_store_evol (rvs : List (String × Nat)) :
    ∀ (initial : List InitialEntry) (s : Store) (w : Nat),
      ((appendRelated rvs initial s).2).get w = s.get w ∨
      ((appendRelated rvs initial s).2).get w = eraseKey (s.get w) "id" := by
  induction rvs with
  | nil => intro initial s w; left; rfl
  | cons p rest ih =>
    intro initial s w
    have hs2 : (s.set p.2 (eraseKey (s.get p.2) "id")).get w = s.get w ∨
        (s.set p.2 (eraseKey (s.get p.2) "id")).get w = eraseKey (s.get w) "id" := by
      by_cases hw : w = p.2
      · right; subst hw; rw [Store.get_set_self]
      · left; exact Store.get_set_ne s p.2 w _ hw
    rw [appendRelated_cons]
    split
    · rcases ih initial (s.set p.2 (eraseKey (s.get p.2) "id")) w with h2 | h2 <;>
        rcases hs2 with h3 | h3 <;> rw [h2, h3] <;> simp [eraseKey_idem]
    · rcases ih (initial ++ [InitialEntry.ref p.2]) (s.set p.2 (eraseKey (s.get p.2) "id")) w with h2 | h2 <;>
        rcases hs2 with h3 | h3 <;> rw [h2, h3] <;> simp [eraseKey_idem]

/-- A row without an id key that the initial list already denotes keeps
being denoted by it through the rest of the second reconstruction loop. -/
theorem appendRelated_preserves_mem (rvs : List (String × Nat)) :
    ∀ (initial : List InitialEntry) (s : Store) (row : Row),
      eraseKey row "id" = row →
      row ∈ initial.map (resolveEntry s) →
      row ∈ ((appendRelated rvs initial s).1).map (resolveEntry (appendRelated rvs initial s).2) := by
  induction rvs with
  | nil => intro initial s row hrow hmem; exact hmem
  | cons p rest ih =>
    intro initial s row hrow hmem
    have hmem2 : row ∈ initial.map (resolveEntry (s.set p.2 (eraseKey (s.get p.2) "id"))) := by
      obtain ⟨e, he, hre⟩ := List.mem_map.mp hmem
      exact List.mem_map.mpr ⟨e, he, resolve_set_stable s p.2 e row hrow hre⟩
    rw [appendRelated_cons]
    split
    · exact ih initial _ row hrow hmem2
    · refine ih (initial ++ [InitialEntry.ref p.2]) _ row hrow ?_
      rw [List.map_append]
      exact List.mem_append_left _ hmem2

/-- Every deduplicated related version ends with its field dictionary, id
key removed, denoted somewhere in the final initial list: it is either
appended, or an equal row was already present and stays. -/
theorem appendRelated_mem_erased (rvs : List (String × Nat)) :
    ∀ (initial : List InitialEntry) (s : Store) (p : String × Nat), p ∈ rvs →
      eraseKey (s.get p.2) "id" ∈
        ((appendRelated rvs initial s).1).map (resolveEntry (appendRelated rvs initial s).2) := by
  induction rvs with
  | nil => intro _ _ p hp; cases hp
  | cons q rest ih =>
    intro initial s p hp
    rw [appendRelated_cons]
    rcases List.mem_cons.mp hp with hpq | hp2
    · subst hpq
      by_cases hc : eraseKey (s.get p.2) "id" ∈
          initial.map (resolveEntry (s.set p.2 (eraseKey (s.get p.2) "id")))
      · rw [if_pos hc]
        exact appendRelated_preserves_mem rest initial _ _ (eraseKey_idem _ _) hc
      · rw [if_neg hc]
        refine appendRelated_preserves_mem rest _ _ _ (eraseKey_idem _ _) ?_
        rw [List.map_append]
        refine List.mem_append_right _ ?_
        simp [resolveEntry, Store.get_set_self]
    · have hkey : eraseKey ((s.set q.2 (eraseKey (s.get q.2) "id")).get p.2) "id" =
          eraseKey (s.get p.2) "id" := by
        by_cases hpq2 : p.2 = q.2
        · rw [hpq2, Store.get_set_self, eraseKey_idem]
        · rw [Store.get_set_ne s q.2 p.2 _ hpq2]
      split
      · rw [← hkey]; exact ih initial _ p hp2
      · rw [← hkey]; exact ih (initial ++ [InitialEntry.ref q.2]) _ p hp2

/-- The second reconstruction loop only appends to the initial list. -/
theorem appendRelated_prefix (rvs : List (String × Nat)) :
    ∀ (initial : List InitialEntry) (s : Store),
      ∃ ex, (appendRelated rvs initial s).1 = initial ++ ex := by
  induction rvs with
  | nil => intro initial s; exact ⟨[], by simp [appendRelated]⟩
  | cons q rest ih =>
    intro initial s
    rw [appendRelated_cons]
    split
    · exact ih initial _
    · obtain ⟨ex, hex⟩ := ih (initial ++ [InitialEntry.ref q.2]) _
      exact ⟨InitialEntry.ref q.2 :: ex, by rw [hex, List.append_assoc]; rfl⟩

/-- Everything the second reconstruction loop appends is a reference to a
related version that is matched by no live object of the queryset: versions
matched by a live object are already referenced and get skipped. -/
theorem appendRelated_extras (qs : List LiveObj) (rvs : List (String × Nat)) :
    ∀ (initial : List InitialEntry) (s : Store),
      (∀ p ∈ rvs, (∃ o ∈ qs, toString o.pk = p.1) → InitialEntry.ref p.2 ∈ initial) →
      ∃ ex, (appendRelated rvs initial s).1 = initial ++ ex ∧
        ∀ e ∈ ex, ∃ p ∈ rvs, e = InitialEntry.ref p.2 ∧ ∀ o ∈ qs, toString o.pk ≠ p.1 := by
  induction rvs with
  | nil =>
    intro initial s _
    exact ⟨[], by simp [appendRelated], by simp⟩
  | cons q rest ih =>
    intro initial s hmat
    rw [appendRelated_cons]
    by_cases hqmat : ∃ o ∈ qs, toString o.pk = q.1
    · have href : InitialEntry.ref q.2 ∈ initial := hmat q (List.mem_cons_self q rest) hqmat
      have hc : eraseKey (s.get q.2) "id" ∈
          initial.map (resolveEntry (s.set q.2 (eraseKey (s.get q.2) "id"))) := by
        refine List.mem_map.mpr ⟨InitialEntry.ref q.2, href, ?_⟩
        simp [resolveEntry, Store.get_set_self]
      rw [if_pos hc]
      obtain ⟨ex, hex, hprop⟩ :=
        ih initial _ (fun p hp hm => hmat p (List.mem_cons_of_mem q hp) hm)
      refine ⟨ex, hex, fun e he => ?_⟩
      obtain ⟨p, hp, hprops⟩ := hprop e he
      exact ⟨p, List.mem_cons_of_mem q hp, hprops⟩
    · by_cases hc : eraseKey (s.get q.2) "id" ∈
          initial.map (resolveEntry (s.set q.2 (eraseKey (s.get q.2) "id")))
      · rw [if_pos hc]
        obtain ⟨ex, hex, hprop⟩ :=
          ih initial _ (fun p hp hm => hmat p (List.mem_cons_of_mem q hp) hm)
        refine ⟨ex, hex, fun e he => ?_⟩
        obtain ⟨p, hp, hprops⟩ := hprop e he
        exact ⟨p, List.mem_cons_of_mem q hp, hprops⟩
      · rw [if_neg hc]
        obtain ⟨ex, hex, hprop⟩ :=
          ih (initial ++ [InitialEntry.ref q.2]) _
            (fun p hp hm => List.mem_append_left _ (hmat p (List.mem_cons_of_mem q hp) hm))
        refine ⟨InitialEntry.ref q.2 :: ex, by rw [hex, List.append_assoc]; rfl, fun e he => ?_⟩
        rcases List.mem_cons.mp he with he1 | he2
        · subst he1
          exact ⟨q, List.mem_cons_self q rest, rfl, fun o ho hoq => hqmat ⟨o, ho, hoq⟩⟩
        · obtain ⟨p, hp, hprops⟩ := hprop e he2
          exact ⟨p, List.mem_cons_of_mem q hp, hprops⟩

/-- In a list holding at most one pair with a key, two members carrying the
key are the same pair. -/
theorem eq_of_key_countP_le_one (l : List (String × Nat)) (k : String)
    (hcount : l.countP (fun q => q.1 == k) ≤ 1) :
    ∀ p ∈ l, (p.1 == k) = true → ∀ q ∈ l, (q.1 == k) = true → q = p := by
  induction l with
  | nil => intro p hp; cases hp
  | cons a t ih =>
    intro p hp hpk q hq hqk
    rcases List.mem_cons.mp hp with hp1 | hp1 <;> rcases List.mem_cons.mp hq with hq1 | hq1
    · rw [hp1, hq1]
    · subst hp1
      rw [List.countP_cons_of_pos (p := fun x : String × Nat => x.1 == k) t hpk] at hcount
      have h0 : t.countP (fun x : String × Nat => x.1 == k) = 0 := by omega
      exact absurd hqk (List.countP_eq_zero.mp h0 q hq1)
    · subst hq1
      rw [List.countP_cons_of_pos (p := fun x : String × Nat => x.1 == k) t hqk] at hcount
      have h0 : t.countP (fun x : String × Nat => x.1 == k) = 0 := by omega
      exact absurd hpk (List.countP_eq_zero.mp h0 p hp1)
    · by_cases ha : (a.1 == k) = true
      · rw [List.countP_cons_of_pos (p := fun x : String × Nat => x.1 == k) t ha] at hcount
        have h0 : t.countP (fun x : String × Nat => x.1 == k) = 0 := by omega
        exact absurd hpk (List.countP_eq_zero.mp h0 p hp1)
      · rw [List.countP_cons_of_neg (p := fun x : String × Nat => x.1 == k) t ha] at hcount
        exact ih hcount p hp1 hpk q hq1 hqk

/-- After deduplication a real object id is carried by at most one pair. -/
theorem dedupRelated_countP_le_one (l : List (String × Nat)) (k : String) (hk : k ≠ "None") :
    (dedupRelated l).countP (fun p => p.1 == k) ≤ 1 := by
  unfold dedupRelated
  rw [List.countP_append]
  have hzero : (l.filter (fun p => p.1 == "None")).countP (fun p => p.1 == k) = 0 := by
    refine List.countP_eq_zero.mpr (fun x hx hxk => ?_)
    have hx1 : (x.1 == "None") = true := (List.mem_filter.mp hx).2
    have hx2 : x.1 = "None" := by simpa using hx1
    have hx3 : x.1 = k := by simpa using hxk
    exact hk (hx3.symm.trans hx2)
  rw [hzero]
  simpa using pairwise_keys_countP_le_one _ (dictOfPairs_pairwise (l.filter (fun p => p.1 != "None"))) k

/-- Looking up the object id of a deduplicated pair in the Python dict built
from the deduplicated list finds exactly that pair's version. -/
theorem dedupRelated_lookup_self (raw : List (String × Nat)) (p : String × Nat)
    (hp : p ∈ dedupRelated raw) (hk : p.1 ≠ "None") :
    dictLookup (dedupRelated raw) p.1 = some p.2 := by
  unfold dictLookup
  rw [dictOfPairs_find]
  unfold lastLookup
  have huniq := eq_of_key_countP_le_one (dedupRelated raw) p.1
    (dedupRelated_countP_le_one raw p.1 hk) p hp (by simp)
  cases hfind : (dedupRelated raw).reverse.find? (fun q => q.1 == p.1) with
  | none =>
    have := List.find?_eq_none.mp hfind p (List.mem_reverse.mpr hp)
    simp at this
  | some q0 =>
    have hq0p : ((fun q : String × Nat => q.1 == p.1) q0) = true :=
      List.find?_some (p := fun q : String × Nat => q.1 == p.1) hfind
    have hq0mem : q0 ∈ (dedupRelated raw).reverse := List.mem_of_find?_eq_some hfind
    have hq0 : q0 = p := huniq q0 (List.mem_reverse.mp hq0mem) hq0p
    simp [hq0]

/-- The first reconstruction loop references the deduplicated version whose
object id equals the primary key of the live object. -/
theorem liveEntry_of_matched (raw : List (String × Nat)) (o : LiveObj) (p : String × Nat)
    (hp : p ∈ dedupRelated raw) (hk : p.1 ≠ "None") (hkey : toString o.pk = p.1) :
    liveEntry (dedupRelated raw) o = InitialEntry.ref p.2 := by
  unfold liveEntry
  rw [hkey, dedupRelated_lookup_self raw p hp hk]

/-- C5: reconstructing the inline formset from a revision: the entry for the
i-th live object is the field dictionary of the deduplicated version sharing
its primary key, or its own data with a DELETE marker; the field dictionary
of every deduplicated version, id key removed, is denoted in the final
initial list; and everything beyond the live entries is a reference to a
version not matched by any live object, duplicates being skipped. -/
theorem C5_formset_merge (revisionVersions : List Version) (s : Store) (fkName : String)
    (formsetCt : Nat) (object_id : Nat) (qs : List LiveObj)
    (hqsk : ∀ o ∈ qs, toString o.pk ≠ "None") :
    (∀ (i : Nat) (o : LiveObj), qs[i]? = some o →
      ((renderRevisionInitial revisionVersions s fkName formsetCt object_id qs).1)[i]? =
        some (liveEntry (dedupRelated (relatedVersionPairs revisionVersions s fkName formsetCt
          (toString object_id))) o)) ∧
    (∀ p ∈ dedupRelated (relatedVersionPairs revisionVersions s fkName formsetCt
        (toString object_id)),
      eraseKey (s.get p.2) "id" ∈
        ((renderRevisionInitial revisionVersions s fkName formsetCt object_id qs).1).map
          (resolveEntry (renderRevisionInitial revisionVersions s fkName formsetCt object_id qs).2)) ∧
    (∃ ex, (renderRevisionInitial revisionVersions s fkName formsetCt object_id qs).1 =
        buildLiveInitial (dedupRelated (relatedVersionPairs revisionVersions s fkName formsetCt
          (toString object_id))) qs ++ ex ∧
      ∀ e ∈ ex, ∃ p ∈ dedupRelated (relatedVersionPairs revisionVersions s fkName formsetCt
          (toString object_id)), e = InitialEntry.ref p.2 ∧ ∀ o ∈ qs, toString o.pk ≠ p.1) := by
  have hrri : renderRevisionInitial revisionVersions s fkName formsetCt object_id qs =
      appendRelated (dedupRelated (relatedVersionPairs revisionVersions s fkName formsetCt
        (toString object_id)))
        (buildLiveInitial (dedupRelated (relatedVersionPairs revisionVersions s fkName formsetCt
          (toString object_id))) qs) s := rfl
  refine ⟨?_, ?_, ?_⟩
  · intro i o ho
    rw [hrri]
    obtain ⟨ex, hex⟩ := appendRelated_prefix
      (dedupRelated (relatedVersionPairs revisionVersions s fkName formsetCt (toString object_id)))
      (buildLiveInitial (dedupRelated (relatedVersionPairs revisionVersions s fkName formsetCt
        (toString object_id))) qs) s
    rw [hex]
    have hlen : i < (buildLiveInitial (dedupRelated (relatedVersionPairs revisionVersions s fkName
        formsetCt (toString object_id))) qs).length := by
      unfold buildLiveInitial
      rw [List.length_map]
      exact (List.getElem?_eq_some.mp ho).1
    rw [List.getElem?_append, if_pos hlen]
    unfold buildLiveInitial
    rw [List.getElem?_map, ho]
    rfl
  · intro p hp
    rw [hrri]
    exact appendRelated_mem_erased _ _ s p hp
  · rw [hrri]
    refine appendRelated_extras qs _ _ s ?_
    intro p hp hm
    obtain ⟨o, ho, hok⟩ := hm
    have hk : p.1 ≠ "None" := by
      rw [← hok]
      exact hqsk o ho
    refine List.mem_map.mpr ⟨o, ho, ?_⟩
    exact liveEntry_of_matched _ o p hp hk hok

/-- Witness for C5 on a concrete revision with a matched version, an
unmatched None version, and a live object absent from the revision. -/
theorem C5_formset_merge_witness :
    (((renderRevisionInitial [⟨0, 9, "4", 2⟩, ⟨1, 9, "None", 2⟩]
        ⟨[(0, [("id", "4"), ("fk", "3"), ("a", "new")]), (1, [("fk", "3"), ("a", "extra")])]⟩
        "fk" 2 3 [⟨4, [("a", "live")]⟩, ⟨5, [("a", "gone")]⟩]).1)[0]? =
      some (liveEntry (dedupRelated (relatedVersionPairs [⟨0, 9, "4", 2⟩, ⟨1, 9, "None", 2⟩]
        ⟨[(0, [("id", "4"), ("fk", "3"), ("a", "new")]), (1, [("fk", "3"), ("a", "extra")])]⟩
        "fk" 2 (toString 3))) ⟨4, [("a", "live")]⟩)) ∧
    (eraseKey ((⟨[(0, [("id", "4"), ("fk", "3"), ("a", "new")]), (1, [("fk", "3"), ("a", "extra")])]⟩ : Store).get 1) "id" ∈
      ((renderRevisionInitial [⟨0, 9, "4", 2⟩, ⟨1, 9, "None", 2⟩]
        ⟨[(0, [("id", "4"), ("fk", "3"), ("a", "new")]), (1, [("fk", "3"), ("a", "extra")])]⟩
        "fk" 2 3 [⟨4, [("a", "live")]⟩, ⟨5, [("a", "gone")]⟩]).1).map
        (resolveEntry (renderRevisionInitial [⟨0, 9, "4", 2⟩, ⟨1, 9, "None", 2⟩]
          ⟨[(0, [("id", "4"), ("fk", "3"), ("a", "new")]), (1, [("fk", "3"), ("a", "extra")])]⟩
          "fk" 2 3 [⟨4, [("a", "live")]⟩, ⟨5, [("a", "gone")]⟩]).2)) :=
  ⟨(C5_formset_merge [⟨0, 9, "4", 2⟩, ⟨1, 9, "None", 2⟩]
      ⟨[(0, [("id", "4"), ("fk", "3"), ("a", "new")]), (1, [("fk", "3"), ("a", "extra")])]⟩
      "fk" 2 3 [⟨4, [("a", "live")]⟩, ⟨5, [("a", "gone")]⟩] (by decide)).1 0 ⟨4, [("a", "live")]⟩ rfl,
   (C5_formset_merge [⟨0, 9, "4", 2⟩, ⟨1, 9, "None", 2⟩]
      ⟨[(0, [("id", "4"), ("fk", "3"), ("a", "new")]), (1, [("fk", "3"), ("a", "extra")])]⟩
      "fk" 2 3 [⟨4, [("a", "live")]⟩, ⟨5, [("a", "gone")]⟩] (by decide)).2.1 ("None", 1) (by decide)⟩
